import Mathlib

/-!
Verification of the dezoomify-rs core engine (`src/main.rs`) against its
natural-language specification.  The Rust source is shallowly embedded:
pure fragments become Lean functions, the stateful resolution loop becomes
explicit state passing with fuel, effectful fragments (progress reporting,
logging, fetching) return their observable events explicitly.  Machine
integers (`u32`) are modelled as `Nat` with an explicit `% 2^32` where
overflow matters (the `s.x * s.y` area key in `best_size`).
-/

set_option autoImplicit false

/-- The 2D integer vector of `vec2d.rs` (fields are `u32` in the source,
so components are below `2^32`; we carry that bound as a hypothesis where
it matters). -/
structure Vec2d where
  x : Nat
  y : Nat
deriving DecidableEq

/-- The `u32` area key `s.x * s.y` computed by `best_size`'s
`max_by_key(|s| s.x * s.y)`: multiplication wraps at `2^32`. -/
def area32 (s : Vec2d) : Nat := (s.x * s.y) % 4294967296

/-- A zoom level as consumed by the selector: a name and an optional size
hint (`ZoomLevel::name`, `ZoomLevel::size_hint`).  The tile-enumeration
side of a `ZoomLevel` is modelled separately (`TileReference` lists). -/
structure ZoomLevel where
  name : String
  size_hint : Option Vec2d
deriving DecidableEq

/-- `ZoomLevels` from `dezoomer.rs`: an ordered sequence of zoom levels. -/
abbrev ZoomLevels := List ZoomLevel

/-- Raw fetched bytes (`Vec<u8>` in the source). -/
abbrev Bytes := List Nat

/-- `DezoomerError` (declared in `dezoomer.rs`): the engine in `main.rs`
only distinguishes the `NeedsData { uri }` variant; every other variant is
folded into `other`. -/
inductive DezoomerError where
  | NeedsData (uri : String)
  | other (msg : String)
deriving DecidableEq

/-- The error kinds a `reqwest` transport failure can take, as far as the
engine observes them: a connection-level failure from `send()`, or a
status-code failure from `error_for_status()`. -/
inductive NetError where
  | connection (msg : String)
  | status (code : Nat)
deriving DecidableEq

/-- The `ZoomError` enum of `main.rs` (`custom_error!` block), with
error payloads of external library types rendered as `String`. -/
inductive ZoomError where
  | Networking (e : NetError)
  | Dezoomer (e : DezoomerError)
  | NoLevels
  | NoTile
  | Image (msg : String)
  | TileDownloadError (uri : String) (cause : ZoomError)
  | PostProcessing (msg : String)
  | Io (msg : String)
  | Yaml (msg : String)
  | TileCopyError (x y twidth theight width height : Nat)
  | MalformedTileStr (tile_str : String)
  | NoSuchDezoomer (name : String)
  | InvalidHeaderName (msg : String)
  | InvalidHeaderValue (msg : String)
deriving DecidableEq

deriving instance DecidableEq for Except

/-- The selection-policy slice of the `Arguments` struct: the `largest`,
`max_width` and `max_height` command-line options. -/
structure Arguments where
  largest : Bool
  max_width : Option Nat
  max_height : Option Nat
deriving DecidableEq

/-- One step of Rust's `Iterator::max_by_key` on the key `area32`:
on an equal key the new element replaces the current one, so the overall
fold returns the *last* element attaining the maximal key. -/
def stepMax : Option Vec2d → Vec2d → Option Vec2d
  | none, s => some s
  | some m, s => if area32 m ≤ area32 s then some s else some m

/-- `sizes.max_by_key(|s| s.x * s.y)` from `Arguments::best_size`. -/
def maxByKeyArea (sizes : List Vec2d) : Option Vec2d :=
  sizes.foldl stepMax none

/-- The bound filter closure inside `Arguments::best_size`:
`max_width.map(|w| s.x < w).unwrap_or(true) && max_height.map(|h| s.y < h).unwrap_or(true)`. -/
def sizePasses (args : Arguments) (s : Vec2d) : Bool :=
  (args.max_width.map (fun w => decide (s.x < w))).getD true
    && (args.max_height.map (fun h => decide (s.y < h))).getD true

/-- `Arguments::best_size` from `main.rs`. -/
def Arguments.best_size (args : Arguments) (sizes : List Vec2d) : Option Vec2d :=
  if args.largest then
    maxByKeyArea sizes
  else if args.max_width.isSome || args.max_height.isSome then
    maxByKeyArea (sizes.filter (sizePasses args))
  else
    none

/-- Itertools' `find_position`: first element satisfying the predicate,
together with its index. -/
def find_position (p : ZoomLevel → Bool) : List ZoomLevel → Option (Nat × ZoomLevel)
  | [] => none
  | x :: xs =>
    if p x then some (0, x)
    else (find_position p xs).map (fun q => (q.1 + 1, q.2))

/-- Result of `choose_level`: either a level picked by policy (or because
it was the only one), or the fall-through to the interactive
`level_picker`, which is out of scope (terminal I/O) and therefore left
symbolic with the level list it would be shown. -/
inductive LevelChoice where
  | picked (l : ZoomLevel)
  | interactive (levels : List ZoomLevel)
deriving DecidableEq

/-- The size hints consulted by `choose_level`:
`levels.iter().filter_map(|l| l.size_hint())`. -/
def hintsOf (levels : List ZoomLevel) : List Vec2d :=
  levels.filterMap ZoomLevel.size_hint

/-- `choose_level` from `main.rs`: empty list fails, a singleton is
returned directly (`swap_remove(0)`), otherwise `best_size` over the
levels' size hints chooses a size and `find_position` locates the first
level carrying exactly that hint (`swap_remove(i)` returns that level);
if no size was chosen the interactive picker runs. -/
def choose_level (levels : List ZoomLevel) (args : Arguments) : Except ZoomError LevelChoice :=
  match levels with
  | [] => Except.error ZoomError.NoLevels
  | [l] => Except.ok (LevelChoice.picked l)
  | _ =>
    match (args.best_size (hintsOf levels)).bind
        (fun best => find_position (fun l => decide (l.size_hint = some best)) levels) with
    | some q => Except.ok (LevelChoice.picked q.2)
    | none => Except.ok (LevelChoice.interactive levels)

/-- C5: the Zoom-Level Selector fails with the `NoLevels` error on an
empty sequence, and returns the unique level of a singleton sequence
without consulting any selection policy (the result is the same for every
`Arguments` value). -/
theorem choose_level_trivial (args args' : Arguments) (l : ZoomLevel) :
    choose_level [] args = Except.error ZoomError.NoLevels
      ∧ choose_level [l] args = Except.ok (LevelChoice.picked l)
      ∧ choose_level [l] args = choose_level [l] args' :=
  ⟨rfl, rfl, rfl⟩

theorem foldl_stepMax_some (l : List Vec2d) :
    ∀ a : Vec2d, ∃ m, l.foldl stepMax (some a) = some m := by
  induction l with
  | nil => intro a; exact ⟨a, rfl⟩
  | cons x xs ih =>
    intro a
    show ∃ m, xs.foldl stepMax (stepMax (some a) x) = some m
    rw [stepMax]
    by_cases h : area32 a ≤ area32 x
    · rw [if_pos h]; exact ih x
    · rw [if_neg h]; exact ih a

theorem maxByKeyArea_isSome (l : List Vec2d) (hne : l ≠ []) :
    ∃ m, maxByKeyArea l = some m := by
  cases l with
  | nil => exact absurd rfl hne
  | cons x xs => exact foldl_stepMax_some xs x

theorem foldl_stepMax_mem (l : List Vec2d) :
    ∀ (acc : Option Vec2d) (m : Vec2d),
      l.foldl stepMax acc = some m → m ∈ l ∨ acc = some m := by
  induction l with
  | nil => intro acc m h; exact Or.inr h
  | cons x xs ih =>
    intro acc m h
    rcases ih (stepMax acc x) m h with hm | hacc
    · exact Or.inl (List.mem_cons_of_mem _ hm)
    · cases acc with
      | none =>
        cases hacc
        exact Or.inl (List.mem_cons_self _ _)
      | some a =>
        rw [stepMax] at hacc
        by_cases hc : area32 a ≤ area32 x
        · rw [if_pos hc] at hacc
          cases hacc
          exact Or.inl (List.mem_cons_self _ _)
        · rw [if_neg hc] at hacc
          exact Or.inr hacc

theorem foldl_stepMax_le (l : List Vec2d) :
    ∀ (acc : Option Vec2d) (m : Vec2d),
      l.foldl stepMax acc = some m →
      (∀ s ∈ l, area32 s ≤ area32 m) ∧ (∀ a, acc = some a → area32 a ≤ area32 m) := by
  induction l with
  | nil =>
    intro acc m h
    refine ⟨?_, ?_⟩
    · intro s hs
      cases hs
    intro a ha
    rw [ha] at h
    cases h
    exact Nat.le_refl _
  | cons x xs ih =>
    intro acc m h
    have IH := ih (stepMax acc x) m h
    have hx : area32 x ≤ area32 m := by
      cases acc with
      | none => exact IH.2 x rfl
      | some a =>
        rw [stepMax] at IH
        by_cases hc : area32 a ≤ area32 x
        · rw [if_pos hc] at IH; exact IH.2 x rfl
        · rw [if_neg hc] at IH
          exact Nat.le_trans (Nat.le_of_not_le hc) (IH.2 a rfl)
    constructor
    · intro s hs
      rcases List.mem_cons.mp hs with rfl | hs'
      · exact hx
      · exact IH.1 s hs'
    · intro a ha
      subst ha
      rw [stepMax] at IH
      by_cases hc : area32 a ≤ area32 x
      · rw [if_pos hc] at IH
        exact Nat.le_trans hc (IH.2 x rfl)
      · rw [if_neg hc] at IH
        exact IH.2 a rfl

theorem maxByKeyArea_mem (l : List Vec2d) (m : Vec2d) (h : maxByKeyArea l = some m) :
    m ∈ l := by
  rcases foldl_stepMax_mem l none m h with hm | hacc
  · exact hm
  · cases hacc

theorem maxByKeyArea_le (l : List Vec2d) (m : Vec2d) (h : maxByKeyArea l = some m) :
    ∀ s ∈ l, area32 s ≤ area32 m :=
  (foldl_stepMax_le l none m h).1

/-- Rust's `max_by_key` keeps the *last* element attaining the maximal
key: appending an element whose key dominates the whole list makes it the
result. -/
theorem maxByKeyArea_concat (pre : List Vec2d) (s : Vec2d)
    (hle : ∀ t ∈ pre, area32 t ≤ area32 s) :
    maxByKeyArea (pre ++ [s]) = some s := by
  unfold maxByKeyArea
  rw [List.foldl_append]
  cases hf : pre.foldl stepMax none with
  | none => rfl
  | some m =>
    have hm : m ∈ pre := maxByKeyArea_mem pre m hf
    show stepMax (some m) s = some s
    rw [stepMax]
    rw [if_pos (hle m hm)]

/-- General last-maximal characterisation of `max_by_key`: the result
splits the list as `pre ++ m :: post` where `m` attains the maximal key
and every element *after* it is strictly smaller — i.e. `m` is the
last-encountered maximal element, wherever it sits in the list. -/
theorem foldl_stepMax_last (l : List Vec2d) :
    ∀ (acc : Option Vec2d) (m : Vec2d),
      l.foldl stepMax acc = some m →
      (∃ pre post, l = pre ++ m :: post ∧ ∀ t ∈ post, area32 t < area32 m)
        ∨ (acc = some m ∧ ∀ t ∈ l, area32 t < area32 m) := by
  induction l with
  | nil =>
    intro acc m h
    right
    refine ⟨h, ?_⟩
    intro t ht
    cases ht
  | cons x xs ih =>
    intro acc m h
    rcases ih (stepMax acc x) m h with ⟨pre, post, heq, hpost⟩ | ⟨hacc, hall⟩
    · left
      exact ⟨x :: pre, post, by rw [heq]; rfl, hpost⟩
    · cases acc with
      | none =>
        cases hacc
        left
        exact ⟨[], xs, rfl, hall⟩
      | some a =>
        rw [stepMax] at hacc
        by_cases hc : area32 a ≤ area32 x
        · rw [if_pos hc] at hacc
          cases hacc
          left
          exact ⟨[], xs, rfl, hall⟩
        · rw [if_neg hc] at hacc
          cases hacc
          right
          refine ⟨rfl, ?_⟩
          intro t ht
          rcases List.mem_cons.mp ht with rfl | ht'
          · exact Nat.lt_of_not_le hc
          · exact hall t ht'

theorem maxByKeyArea_last (l : List Vec2d) (m : Vec2d)
    (h : maxByKeyArea l = some m) :
    ∃ pre post, l = pre ++ m :: post ∧ ∀ t ∈ post, area32 t < area32 m := by
  rcases foldl_stepMax_last l none m h with hl | ⟨hacc, _⟩
  · exact hl
  · cases hacc

theorem find_position_sound (p : ZoomLevel → Bool) :
    ∀ (l : List ZoomLevel) (q : Nat × ZoomLevel),
      find_position p l = some q →
      p q.2 = true ∧
        ∃ lpre lpost, l = lpre ++ q.2 :: lpost ∧ ∀ y ∈ lpre, p y = false := by
  intro l
  induction l with
  | nil => intro q h; cases h
  | cons x xs ih =>
    intro q h
    unfold find_position at h
    by_cases hx : p x = true
    · rw [if_pos hx] at h
      cases h
      refine ⟨hx, [], xs, rfl, ?_⟩
      intro y hy
      cases hy
    · rw [if_neg hx] at h
      cases hq : find_position p xs with
      | none => rw [hq] at h; cases h
      | some q' =>
        rw [hq] at h
        cases h
        obtain ⟨hp, lpre, lpost, heq, hall⟩ := ih q' hq
        refine ⟨hp, x :: lpre, lpost, by rw [heq]; rfl, ?_⟩
        intro y hy
        rcases List.mem_cons.mp hy with rfl | hy'
        · exact Bool.eq_false_iff.mpr fun hc => hx hc
        · exact hall y hy'

theorem find_position_exists (p : ZoomLevel → Bool) :
    ∀ l : List ZoomLevel, (∃ x ∈ l, p x = true) → ∃ q, find_position p l = some q := by
  intro l
  induction l with
  | nil => intro ⟨x, hx, _⟩; cases hx
  | cons a as ih =>
    intro ⟨x, hx, hpx⟩
    unfold find_position
    by_cases ha : p a = true
    · rw [if_pos ha]; exact ⟨(0, a), rfl⟩
    · rw [if_neg ha]
      rcases List.mem_cons.mp hx with rfl | hx'
      · exact absurd hpx ha
      · obtain ⟨q, hq⟩ := ih ⟨x, hx', hpx⟩
        rw [hq]
        exact ⟨(q.1 + 1, q.2), rfl⟩

theorem best_size_largest (args : Arguments) (hpol : args.largest = true)
    (sizes : List Vec2d) : args.best_size sizes = maxByKeyArea sizes := by
  unfold Arguments.best_size
  rw [hpol]
  simp

theorem choose_level_cons (a b : ZoomLevel) (rest : List ZoomLevel) (args : Arguments) :
    choose_level (a :: b :: rest) args =
      match (args.best_size (hintsOf (a :: b :: rest))).bind
          (fun best => find_position (fun l => decide (l.size_hint = some best))
            (a :: b :: rest)) with
      | some q => Except.ok (LevelChoice.picked q.2)
      | none => Except.ok (LevelChoice.interactive (a :: b :: rest)) := rfl

theorem option_bind_none_law {α β : Type} (f : α → Option β) :
    (none : Option α).bind f = none := rfl

theorem option_bind_some_law {α β : Type} (a : α) (f : α → Option β) :
    (some a).bind f = f a := rfl

/-- Two levels whose distinct size hints tie on area: `2 * 6 = 3 * 4`. -/
def levelA : ZoomLevel := ⟨"levelA", some ⟨2, 6⟩⟩

/-- Second tying level, encountered after `levelA`. -/
def levelB : ZoomLevel := ⟨"levelB", some ⟨3, 4⟩⟩

/-- The `largest` selection policy. -/
def largestArgs : Arguments := ⟨true, none, none⟩

/-- C3 counterexample: under the `largest` policy, with two levels whose
distinct size hints tie on area (2×6 and 3×4), the code selects the
*second* level, not the first-encountered one: `max_by_key` keeps the
last maximal key, and `find_position` then locates the level carrying
that (second) size.  This refutes the claim's first-encountered
tie-break. -/
theorem choose_level_largest_cex :
    area32 ⟨2, 6⟩ = area32 ⟨3, 4⟩
      ∧ choose_level [levelA, levelB] largestArgs
          = Except.ok (LevelChoice.picked levelB)
      ∧ choose_level [levelA, levelB] largestArgs
          ≠ Except.ok (LevelChoice.picked levelA) := by
  refine ⟨rfl, ?_, ?_⟩
  · rfl
  · decide

/-- C3 (amended): under the `largest` policy with at least two levels,
any selected level carries a size hint of maximal area among hinted
levels, where the code's comparison key is the `u32` product
`width * height` (wrapping at `2^32`; it equals the true area whenever
every hinted product fits in `u32` — the inner implication); levels
without a size hint are ineligible, and a level is selected whenever any
level has a hint.  Tie-break (as corrected by
`choose_level_largest_cex`), for arbitrary tying sequences: the chosen
size is the *last-encountered* hint attaining the maximal key — it
attains the maximum over all hints and strictly exceeds every hint after
it — and the selected level is the *first-encountered* level carrying
exactly that size, so tying levels sharing one size hint resolve to the
first of them. -/
theorem choose_level_largest (levels : List ZoomLevel) (args : Arguments)
    (hpol : args.largest = true) (hlen : 2 ≤ levels.length) :
    (∀ l, choose_level levels args = Except.ok (LevelChoice.picked l) →
      ∃ s, l.size_hint = some s ∧ s ∈ hintsOf levels
        ∧ (∀ t ∈ hintsOf levels, area32 t ≤ area32 s)
        ∧ ((∀ t ∈ hintsOf levels, t.x * t.y < 4294967296) →
            ∀ t ∈ hintsOf levels, t.x * t.y ≤ s.x * s.y))
    ∧ (hintsOf levels ≠ [] →
        ∃ lpre lsel lpost hpre hpost s,
          choose_level levels args = Except.ok (LevelChoice.picked lsel)
            ∧ lsel.size_hint = some s
            ∧ hintsOf levels = hpre ++ s :: hpost
            ∧ (∀ t ∈ hintsOf levels, area32 t ≤ area32 s)
            ∧ (∀ t ∈ hpost, area32 t < area32 s)
            ∧ levels = lpre ++ lsel :: lpost
            ∧ ∀ y ∈ lpre, y.size_hint ≠ some s) := by
  obtain ⟨a, b, rest, rfl⟩ : ∃ a b rest, levels = a :: b :: rest := by
    match levels, hlen with
    | a :: b :: rest, _ => exact ⟨a, b, rest, rfl⟩
  have hred := choose_level_cons a b rest args
  rw [best_size_largest args hpol] at hred
  refine ⟨?_, ?_⟩
  · intro l hres
    rw [hred] at hres
    cases hbs : maxByKeyArea (hintsOf (a :: b :: rest)) with
    | none =>
      rw [hbs, option_bind_none_law] at hres
      cases hres
    | some m =>
      rw [hbs, option_bind_some_law] at hres
      cases hfp : find_position
          (fun l => decide (l.size_hint = some m)) (a :: b :: rest) with
      | none => rw [hfp] at hres; cases hres
      | some q =>
        rw [hfp] at hres
        have hql : q.2 = l := by
          simpa only [Except.ok.injEq, LevelChoice.picked.injEq] using hres
        obtain ⟨hp, _, _, _, _⟩ := find_position_sound _ _ _ hfp
        have hhint : l.size_hint = some m := by
          rw [← hql]
          exact of_decide_eq_true hp
        have hmem : m ∈ hintsOf (a :: b :: rest) := maxByKeyArea_mem _ m hbs
        refine ⟨m, hhint, hmem, maxByKeyArea_le _ m hbs, ?_⟩
        intro hnof t ht
        have harea : ∀ u ∈ hintsOf (a :: b :: rest), area32 u = u.x * u.y :=
          fun u hu => Nat.mod_eq_of_lt (hnof u hu)
        have hle := maxByKeyArea_le _ m hbs t ht
        rw [harea t ht, harea m hmem] at hle
        exact hle
  · intro hne
    obtain ⟨m, hbs⟩ := maxByKeyArea_isSome _ hne
    obtain ⟨hpre, hpost, hsplit, hlt⟩ := maxByKeyArea_last _ m hbs
    have hmem : m ∈ hintsOf (a :: b :: rest) := maxByKeyArea_mem _ m hbs
    obtain ⟨lv, hlv, hsh⟩ := List.mem_filterMap.mp hmem
    obtain ⟨q, hfp⟩ := find_position_exists
        (fun l => decide (l.size_hint = some m)) (a :: b :: rest)
        ⟨lv, hlv, decide_eq_true hsh⟩
    obtain ⟨hp, lpre, lpost, heq, hall⟩ := find_position_sound _ _ _ hfp
    refine ⟨lpre, q.2, lpost, hpre, hpost, m, ?_, of_decide_eq_true hp,
      hsplit, maxByKeyArea_le _ m hbs, hlt, heq, ?_⟩
    · rw [hred, hbs, option_bind_some_law, hfp]
    · intro y hy
      exact of_decide_eq_false (hall y hy)

/-- Third level used by the amended-claim witnesses: strictly smaller
area than `levelA` and `levelB`. -/
def levelC : ZoomLevel := ⟨"levelC", some ⟨1, 2⟩⟩

/-- Witness for `choose_level_largest` at `[levelA, levelB, levelC]`
(hints (2,6), (3,4), (1,2)): the two maximal hints tie on area 12 and
the maximal hint is *not* the final element of the hint list, so the
general tie-break clause is exercised. -/
theorem choose_level_largest_witness :
    ∃ lpre lsel lpost hpre hpost s,
      choose_level [levelA, levelB, levelC] largestArgs
          = Except.ok (LevelChoice.picked lsel)
        ∧ lsel.size_hint = some s
        ∧ hintsOf [levelA, levelB, levelC] = hpre ++ s :: hpost
        ∧ (∀ t ∈ hintsOf [levelA, levelB, levelC], area32 t ≤ area32 s)
        ∧ (∀ t ∈ hpost, area32 t < area32 s)
        ∧ [levelA, levelB, levelC] = lpre ++ lsel :: lpost
        ∧ ∀ y ∈ lpre, y.size_hint ≠ some s :=
  (choose_level_largest [levelA, levelB, levelC] largestArgs rfl
    (by decide)).2 (by decide)

theorem best_size_bounded (args : Arguments) (hpol : args.largest = false)
    (hbnd : (args.max_width.isSome || args.max_height.isSome) = true)
    (sizes : List Vec2d) :
    args.best_size sizes = maxByKeyArea (sizes.filter (sizePasses args)) := by
  unfold Arguments.best_size
  rw [hpol, hbnd]
  simp

/-- The max-width selection policy with bound 10. -/
def boundArgs : Arguments := ⟨false, some 10, none⟩

/-- C4 counterexample: under `max-width 10`, with two eligible levels
whose distinct size hints tie on area (2×6 and 3×4), the code selects
the *second* level, not the first-encountered one, refuting the claim's
first-encountered tie-break for the bounded policy. -/
theorem choose_level_bounded_cex :
    sizePasses boundArgs ⟨2, 6⟩ = true ∧ sizePasses boundArgs ⟨3, 4⟩ = true
      ∧ area32 ⟨2, 6⟩ = area32 ⟨3, 4⟩
      ∧ choose_level [levelA, levelB] boundArgs
          = Except.ok (LevelChoice.picked levelB)
      ∧ choose_level [levelA, levelB] boundArgs
          ≠ Except.ok (LevelChoice.picked levelA) := by
  refine ⟨rfl, rfl, rfl, rfl, ?_⟩
  decide

/-- C4 (amended): under a max-width and/or max-height policy with at
least two levels, only levels whose size hint meets every given bound
strictly are eligible (`sizePasses` is exactly that strict test); any
selected level is eligible and of maximal area among eligible hints,
where the comparison key is the `u32` product `width * height` (wrapping
at `2^32`; equal to the true area whenever every hinted product fits in
`u32` — the inner implication); if no hint passes the bounds the
selector falls back to the interactive pick; and whenever some hint
passes, a level is selected.  Tie-break (as corrected by
`choose_level_bounded_cex`), for arbitrary tying sequences: the chosen
size is the *last-encountered* eligible hint attaining the maximal key —
maximal among eligible hints and strictly above every eligible hint
after it — and the selected level is the *first-encountered* level
carrying exactly that size. -/
theorem choose_level_bounded (levels : List ZoomLevel) (args : Arguments)
    (hpol : args.largest = false)
    (hbnd : (args.max_width.isSome || args.max_height.isSome) = true)
    (hlen : 2 ≤ levels.length) :
    (∀ s, sizePasses args s = true ↔
      ((∀ w, args.max_width = some w → s.x < w)
        ∧ (∀ h, args.max_height = some h → s.y < h)))
    ∧ (∀ l, choose_level levels args = Except.ok (LevelChoice.picked l) →
        ∃ s, l.size_hint = some s ∧ s ∈ hintsOf levels
          ∧ sizePasses args s = true
          ∧ (∀ t ∈ hintsOf levels, sizePasses args t = true →
              area32 t ≤ area32 s)
          ∧ ((∀ t ∈ hintsOf levels, t.x * t.y < 4294967296) →
              ∀ t ∈ hintsOf levels, sizePasses args t = true →
                t.x * t.y ≤ s.x * s.y))
    ∧ ((∀ t ∈ hintsOf levels, sizePasses args t = false) →
        choose_level levels args = Except.ok (LevelChoice.interactive levels))
    ∧ ((hintsOf levels).filter (sizePasses args) ≠ [] →
        ∃ lpre lsel lpost fpre fpost s,
          choose_level levels args = Except.ok (LevelChoice.picked lsel)
            ∧ lsel.size_hint = some s
            ∧ sizePasses args s = true
            ∧ (hintsOf levels).filter (sizePasses args) = fpre ++ s :: fpost
            ∧ (∀ t ∈ hintsOf levels, sizePasses args t = true →
                area32 t ≤ area32 s)
            ∧ (∀ t ∈ fpost, area32 t < area32 s)
            ∧ levels = lpre ++ lsel :: lpost
            ∧ ∀ y ∈ lpre, y.size_hint ≠ some s) := by
  obtain ⟨a, b, rest, rfl⟩ : ∃ a b rest, levels = a :: b :: rest := by
    match levels, hlen with
    | a :: b :: rest, _ => exact ⟨a, b, rest, rfl⟩
  have hred := choose_level_cons a b rest args
  rw [best_size_bounded args hpol hbnd] at hred
  refine ⟨?_, ?_, ?_, ?_⟩
  · intro s
    unfold sizePasses
    cases hw : args.max_width with
    | none =>
      cases hh : args.max_height with
      | none => simp
      | some h => simp
    | some w =>
      cases hh : args.max_height with
      | none => simp
      | some h => simp
  · intro l hres
    rw [hred] at hres
    cases hbs : maxByKeyArea ((hintsOf (a :: b :: rest)).filter (sizePasses args)) with
    | none =>
      rw [hbs, option_bind_none_law] at hres
      cases hres
    | some m =>
      rw [hbs, option_bind_some_law] at hres
      cases hfp : find_position
          (fun l => decide (l.size_hint = some m)) (a :: b :: rest) with
      | none => rw [hfp] at hres; cases hres
      | some q =>
        rw [hfp] at hres
        have hql : q.2 = l := by
          simpa only [Except.ok.injEq, LevelChoice.picked.injEq] using hres
        obtain ⟨hp, _, _, _, _⟩ := find_position_sound _ _ _ hfp
        have hhint : l.size_hint = some m := by
          rw [← hql]
          exact of_decide_eq_true hp
        have hmemf : m ∈ (hintsOf (a :: b :: rest)).filter (sizePasses args) :=
          maxByKeyArea_mem _ m hbs
        have hmem : m ∈ hintsOf (a :: b :: rest) := (List.mem_filter.mp hmemf).1
        have hpass : sizePasses args m = true := (List.mem_filter.mp hmemf).2
        refine ⟨m, hhint, hmem, hpass, ?_, ?_⟩
        · intro t ht htp
          exact maxByKeyArea_le _ m hbs t (List.mem_filter.mpr ⟨ht, htp⟩)
        · intro hnof t ht htp
          have harea : ∀ u ∈ hintsOf (a :: b :: rest), area32 u = u.x * u.y :=
            fun u hu => Nat.mod_eq_of_lt (hnof u hu)
          have hle := maxByKeyArea_le _ m hbs t (List.mem_filter.mpr ⟨ht, htp⟩)
          rw [harea t ht, harea m hmem] at hle
          exact hle
  · intro hfail
    have hnil : (hintsOf (a :: b :: rest)).filter (sizePasses args) = [] := by
      rw [List.filter_eq_nil_iff]
      intro t ht
      rw [hfail t ht]
      exact Bool.false_ne_true
    rw [hred, hnil]
    rfl
  · intro hne
    obtain ⟨m, hbs⟩ := maxByKeyArea_isSome _ hne
    obtain ⟨fpre, fpost, hsplit, hlt⟩ := maxByKeyArea_last _ m hbs
    have hmemf : m ∈ (hintsOf (a :: b :: rest)).filter (sizePasses args) :=
      maxByKeyArea_mem _ m hbs
    have hmem : m ∈ hintsOf (a :: b :: rest) := (List.mem_filter.mp hmemf).1
    have hpass : sizePasses args m = true := (List.mem_filter.mp hmemf).2
    obtain ⟨lv, hlv, hsh⟩ := List.mem_filterMap.mp hmem
    obtain ⟨q, hfp⟩ := find_position_exists
        (fun l => decide (l.size_hint = some m)) (a :: b :: rest)
        ⟨lv, hlv, decide_eq_true hsh⟩
    obtain ⟨hp, lpre, lpost, heq, hall⟩ := find_position_sound _ _ _ hfp
    refine ⟨lpre, q.2, lpost, fpre, fpost, m, ?_, of_decide_eq_true hp, hpass,
      hsplit, ?_, hlt, heq, ?_⟩
    · rw [hred, hbs, option_bind_some_law, hfp]
    · intro t ht htp
      exact maxByKeyArea_le _ m hbs t (List.mem_filter.mpr ⟨ht, htp⟩)
    · intro y hy
      exact of_decide_eq_false (hall y hy)

/-- Witness for `choose_level_bounded` at `[levelA, levelB, levelC]`
(hints (2,6), (3,4), (1,2)): with bound `max-width 10` all three are
eligible, the two maximal hints tie on area 12 with the maximal one not
last in the eligible list, exercising the general tie-break clause; with
bound `max-width 1` no hint passes and the interactive fallback fires. -/
theorem choose_level_bounded_witness :
    (∃ lpre lsel lpost fpre fpost s,
      choose_level [levelA, levelB, levelC] boundArgs
          = Except.ok (LevelChoice.picked lsel)
        ∧ lsel.size_hint = some s
        ∧ sizePasses boundArgs s = true
        ∧ (hintsOf [levelA, levelB, levelC]).filter (sizePasses boundArgs)
            = fpre ++ s :: fpost
        ∧ (∀ t ∈ hintsOf [levelA, levelB, levelC],
            sizePasses boundArgs t = true → area32 t ≤ area32 s)
        ∧ (∀ t ∈ fpost, area32 t < area32 s)
        ∧ [levelA, levelB, levelC] = lpre ++ lsel :: lpost
        ∧ ∀ y ∈ lpre, y.size_hint ≠ some s)
      ∧ choose_level [levelA, levelB, levelC] ⟨false, some 1, none⟩
          = Except.ok (LevelChoice.interactive [levelA, levelB, levelC]) :=
  ⟨(choose_level_bounded [levelA, levelB, levelC] boundArgs rfl rfl
      (by decide)).2.2.2 (by decide),
    (choose_level_bounded [levelA, levelB, levelC] ⟨false, some 1, none⟩ rfl rfl
      (by decide)).2.2.1 (by decide)⟩

/-- Outcome of a completed `dezoomify` run: the final progress message
and whether the output image was written (`canvas.image().save(...)` is
reached).  An `Except.error` result means the run failed before the save,
so no output image is written. -/
structure RunResult where
  finalMsg : String
  imageWritten : Bool
deriving DecidableEq

/-- The partial-success summary string of `dezoomify`. -/
def summaryMsg (successful total : Nat) : String :=
  "Successfully downloaded " ++ toString successful ++ " tiles out of "
    ++ toString total

/-- `successful_tiles` of `dezoomify`: the `flat_map(...).count()` over
per-tile outcomes — each attempted tile contributes `.ok()`, and only
successes survive the flat-map. -/
def successCountOf (results : List (Except ZoomError Unit)) : Nat :=
  (results.filterMap Except.toOption).length

/-- The tail of `dezoomify` (lines 242-278 of `main.rs`), over the list
of per-tile outcomes (download + `add_tile` result per attempted tile):
full success when `successful_tiles == total_tiles`, partial summary when
`successful_tiles > 0`, otherwise the run returns `ZoomError::NoTile`
before the image is saved. -/
def dezoomifyTail (results : List (Except ZoomError Unit)) : Except ZoomError RunResult :=
  let total_tiles := results.length
  let successful_tiles := successCountOf results
  if successful_tiles = total_tiles then
    Except.ok ⟨"Downloaded all tiles.", true⟩
  else if successful_tiles > 0 then
    Except.ok ⟨summaryMsg successful_tiles total_tiles, true⟩
  else
    Except.error ZoomError.NoTile

/-- C1 counterexample: with zero attempted tiles, zero tiles succeeded,
yet the run takes the `successful_tiles == total_tiles` branch first, so
it reports full success and writes the output image instead of failing
with the "no tile" error. -/
theorem dezoomify_outcome_cex :
    successCountOf [] = 0
      ∧ dezoomifyTail [] = Except.ok ⟨"Downloaded all tiles.", true⟩
      ∧ dezoomifyTail [] ≠ Except.error ZoomError.NoTile := by
  refine ⟨rfl, rfl, ?_⟩
  decide

/-- C1 (amended): after all tile fetches are attempted — if zero tiles
succeeded *and at least one tile was attempted*, the run fails with the
"no tile" error and no output image is written; if some but not all
succeeded, the run succeeds with the partial-success summary carrying the
successful and total counts and writes the image; if all succeeded
(including the vacuous zero-tile case, as `dezoomify_outcome_cex`
forces), it reports full success and writes the image. -/
theorem dezoomify_outcome (results : List (Except ZoomError Unit)) :
    (successCountOf results = 0 → 0 < results.length →
      dezoomifyTail results = Except.error ZoomError.NoTile)
    ∧ (0 < successCountOf results → successCountOf results < results.length →
        dezoomifyTail results
          = Except.ok ⟨summaryMsg (successCountOf results) results.length, true⟩)
    ∧ (successCountOf results = results.length →
        dezoomifyTail results = Except.ok ⟨"Downloaded all tiles.", true⟩) := by
  refine ⟨?_, ?_, ?_⟩
  · intro hz hpos
    unfold dezoomifyTail
    rw [hz]
    rw [if_neg (Nat.ne_of_lt hpos)]
    rfl
  · intro hpos hlt
    unfold dezoomifyTail
    rw [if_neg (Nat.ne_of_lt hlt)]
    rw [if_pos hpos]
  · intro heq
    unfold dezoomifyTail
    rw [if_pos heq]

/-- Witness for `dezoomify_outcome` on a batch of three attempted tiles
of which two succeed (partial success), and a batch of one attempted
tile that fails (no-tile failure). -/
theorem dezoomify_outcome_witness :
    dezoomifyTail [Except.ok (), Except.error ZoomError.NoTile, Except.ok ()]
        = Except.ok ⟨summaryMsg 2 3, true⟩
      ∧ dezoomifyTail [Except.error (ZoomError.Io "boom")]
          = Except.error ZoomError.NoTile :=
  ⟨(dezoomify_outcome
      [Except.ok (), Except.error ZoomError.NoTile, Except.ok ()]).2.1
      (by decide) (by decide),
    (dezoomify_outcome [Except.error (ZoomError.Io "boom")]).1
      (by decide) (by decide)⟩

/-- `TileReference` from `dezoomer.rs` as used by `main.rs`: a target
position on the canvas and the URL to fetch. -/
structure TileReference where
  url : String
  position : Vec2d
deriving DecidableEq

/-- `display_err` from `main.rs`: keeps the `Ok` value, turns an error
into `None` (the error is printed to stderr; `displayedErrors` below
collects exactly what it prints). -/
def display_err {ε α : Type} (res : Except ε α) : Option α :=
  match res with
  | Except.ok value => some value
  | Except.error _ => none

/-- The errors `display_err` prints to stderr over a list of per-item
results, in order. -/
def displayedErrors {ε α : Type} (items : List (Except ε α)) : List ε :=
  items.filterMap (fun r =>
    match r with
    | Except.error e => some e
    | Except.ok _ => none)

/-- `tile_refs` of `dezoomify`:
`zoom_level.tiles().into_iter().filter_map(display_err).collect()`. -/
def tileRefsOf (items : List (Except String TileReference)) : List TileReference :=
  items.filterMap display_err

/-- The progress bar state: `ProgressBar::new(n)` has length `n` and
starts at position 0. -/
structure ProgressState where
  barLength : Nat
  pos : Nat
deriving DecidableEq

/-- `progress_bar` from `main.rs` (the template/style is cosmetic). -/
def progress_bar (n : Nat) : ProgressState := ⟨n, 0⟩

/-- The progress bar `dezoomify` creates:
`progress_bar(tile_refs.len())`. -/
def dezoomifyProgress (items : List (Except String TileReference)) : ProgressState :=
  progress_bar (tileRefsOf items).length

theorem tileRefs_length_aux {ε α : Type} (items : List (Except ε α)) :
    (items.filterMap display_err).length
        + (displayedErrors items).length = items.length := by
  induction items with
  | nil => rfl
  | cons r rs ih =>
    cases r with
    | ok v =>
      simp only [displayedErrors, List.filterMap_cons, display_err] at *
      simp only [List.length_cons]
      omega
    | error e =>
      simp only [displayedErrors, List.filterMap_cons, display_err] at *
      simp only [List.length_cons]
      omega

/-- C6: per-item tile-reference enumeration has filter-map semantics —
every erroring item is dropped from the collected references but logged
(its error appears in the stderr log), every successful item is kept, the
counts add up (dropping is the only loss), and the progress counter is
initialised with total exactly the number of successfully-enumerated
references, starting at zero. -/
theorem tile_enumeration_filtermap (items : List (Except String TileReference)) :
    (tileRefsOf items).length + (displayedErrors items).length = items.length
      ∧ (∀ r, Except.ok r ∈ items → r ∈ tileRefsOf items)
      ∧ (∀ e, Except.error e ∈ items → e ∈ displayedErrors items)
      ∧ (dezoomifyProgress items).barLength = (tileRefsOf items).length
      ∧ (dezoomifyProgress items).pos = 0 := by
  refine ⟨tileRefs_length_aux items, ?_, ?_, rfl, rfl⟩
  · intro r hr
    unfold tileRefsOf
    exact List.mem_filterMap.mpr ⟨Except.ok r, hr, rfl⟩
  · intro e he
    unfold displayedErrors
    exact List.mem_filterMap.mpr ⟨Except.error e, he, rfl⟩

/-- A concrete mixed enumeration for the `tile_enumeration_filtermap`
witness. -/
def mixedItems : List (Except String TileReference) :=
  [Except.ok ⟨"u0", ⟨0, 0⟩⟩, Except.error "bad tile line",
    Except.ok ⟨"u1", ⟨50, 0⟩⟩]

/-- Witness for `tile_enumeration_filtermap` at a concrete mixed batch:
the success at position (50,0) is kept, the malformed item's error is
logged, and the progress total is 2. -/
theorem tile_enumeration_filtermap_witness :
    (⟨"u1", ⟨50, 0⟩⟩ : TileReference) ∈ tileRefsOf mixedItems
      ∧ "bad tile line" ∈ displayedErrors mixedItems
      ∧ (dezoomifyProgress mixedItems).barLength = 2 :=
  ⟨(tile_enumeration_filtermap mixedItems).2.1 _ (by decide),
    (tile_enumeration_filtermap mixedItems).2.2.1 _ (by decide),
    (tile_enumeration_filtermap mixedItems).2.2.2.1⟩

/-- Observable progress events of the tile-fetch loop body in
`dezoomify`: `notify` is the `progress.inc(1)` + `set_message(...)` pair
(carrying the bar position after the increment and the tile's target
position), `completed` marks the end of that tile's download/placement
attempt with its success flag. -/
inductive TileEvent where
  | notify (count : Nat) (position : Vec2d)
  | completed (position : Vec2d) (success : Bool)
deriving DecidableEq

/-- The per-tile body of `dezoomify`'s `flat_map`, sequentialised (one
interleaving of the rayon loop; every interleaving runs this body once
per tile): first `progress.inc(1)` and the "Downloading tile at pos"
message, then the download + `add_tile` attempt completes.  `done` is
the number of attempts started before this batch suffix. -/
def tileAttemptTrace (attempt : TileReference → Bool) :
    List TileReference → Nat → List TileEvent
  | [], _ => []
  | t :: ts, done =>
    TileEvent.notify (done + 1) t.position
      :: TileEvent.completed t.position (attempt t)
      :: tileAttemptTrace attempt ts (done + 1)

/-- The full event trace of the tile-fetch loop of `dezoomify`. -/
def dezoomifyTrace (attempt : TileReference → Bool)
    (refs : List TileReference) : List TileEvent :=
  tileAttemptTrace attempt refs 0

/-- A concrete tile reference for the C7 counterexample. -/
def tileT0 : TileReference := ⟨"u0", ⟨7, 9⟩⟩

/-- C7 counterexample: for a single attempted tile the trace is
`[notify, completed]` — the observer is notified *before* the attempt
completes (the increment and message precede the download), not upon its
completion, and the count it carries (1) exceeds the number of completed
attempts at notification time (0).  The claimed order
`[completed, notify]` is refuted. -/
theorem progress_notification_cex :
    dezoomifyTrace (fun _ => true) [tileT0]
        = [TileEvent.notify 1 ⟨7, 9⟩, TileEvent.completed ⟨7, 9⟩ true]
      ∧ dezoomifyTrace (fun _ => true) [tileT0]
          ≠ [TileEvent.completed ⟨7, 9⟩ true, TileEvent.notify 1 ⟨7, 9⟩] := by
  refine ⟨rfl, ?_⟩
  decide

theorem tileAttemptTrace_enum (attempt : TileReference → Bool) :
    ∀ (refs : List TileReference) (done : Nat),
      tileAttemptTrace attempt refs done
        = ((List.enumFrom done refs).map (fun p =>
            [TileEvent.notify (p.1 + 1) p.2.position,
              TileEvent.completed p.2.position (attempt p.2)])).flatten := by
  intro refs
  induction refs with
  | nil => intro done; rfl
  | cons t ts ih =>
    intro done
    simp only [tileAttemptTrace, List.enumFrom, List.map_cons, List.flatten]
    rw [ih (done + 1)]
    rfl

/-- C7 (amended): in the sequentialised model of the concurrent loop,
the progress observer is notified exactly once per attempted tile, *at
the start* of the attempt — immediately before that tile's completion,
not upon it — carrying the running count of attempts started (1-based,
strictly increasing, exactly-once per tile) and that tile's target
position: the trace is exactly, per tile in order, a `notify` with count
`index + 1` followed by that tile's `completed` event. -/
theorem progress_notification_order (attempt : TileReference → Bool)
    (refs : List TileReference) :
    dezoomifyTrace attempt refs
      = (refs.enum.map (fun p =>
          [TileEvent.notify (p.1 + 1) p.2.position,
            TileEvent.completed p.2.position (attempt p.2)])).flatten :=
  tileAttemptTrace_enum attempt refs 0

/-- A pixel value (the image crate's RGBA pixel, rendered abstractly). -/
abbrev Pixel := Nat

/-- A successfully downloaded tile: target position, dimensions, and
decoded pixel data (row-major). -/
structure Tile where
  position : Vec2d
  size : Vec2d
  pixels : List Pixel
deriving DecidableEq

/-- Modelled from the spec: `canvas.rs` is not under `src/`, so the
Canvas is modelled from §4.5/§3 of the specification for the
known-total-size case — a mutable pixel buffer preallocated at the known
size (row-major). -/
structure Canvas where
  size : Vec2d
  data : List Pixel
deriving DecidableEq

/-- Modelled from the spec: `Canvas::new` with a known total size
preallocates the raster at that size. -/
def Canvas.new (size : Vec2d) : Canvas :=
  ⟨size, List.replicate (size.x * size.y) 0⟩

/-- Whether a tile's bounding box (position + tile size) lies within the
canvas bounds. -/
def tileFits (c : Canvas) (t : Tile) : Bool :=
  decide (t.position.x + t.size.x ≤ c.size.x)
    && decide (t.position.y + t.size.y ≤ c.size.y)

/-- One output pixel of the blit: inside the tile's bounding box the
tile's pixel wins (later tile wins for overlapping pixels), elsewhere the
existing canvas content is kept. -/
def blitPixel (c : Canvas) (t : Tile) (idx : Nat) : Pixel :=
  let px := idx % c.size.x
  let py := idx / c.size.x
  if t.position.x ≤ px ∧ px < t.position.x + t.size.x
      ∧ t.position.y ≤ py ∧ py < t.position.y + t.size.y then
    t.pixels.getD ((py - t.position.y) * t.size.x + (px - t.position.x)) 0
  else
    c.data.getD idx 0

/-- Modelled from the spec: the in-bounds merge of a tile into the
canvas raster. -/
def Canvas.write (c : Canvas) (t : Tile) : Canvas :=
  ⟨c.size, (List.range (c.size.x * c.size.y)).map (blitPixel c t)⟩

/-- Modelled from the spec: `Canvas::add_tile` for a canvas of known
size — a tile whose bounding box exceeds the canvas bounds is rejected
with the structured `ZoomError::TileCopyError` (which `main.rs` declares
with the tile position, tile size and canvas size) and the raster is
untouched; an in-bounds tile is merged.  The returned pair is (canvas
after the call, result). -/
def Canvas.add_tile (c : Canvas) (t : Tile) : Canvas × Except ZoomError Unit :=
  if tileFits c t then
    (c.write t, Except.ok ())
  else
    (c, Except.error (ZoomError.TileCopyError t.position.x t.position.y
      t.size.x t.size.y c.size.x c.size.y))

/-- C8: for every canvas of known total size and every tile whose
bounding box (position + tile size) exceeds the canvas bounds,
`add_tile` returns the structured placement error carrying the tile
position, the tile size and the canvas size, and leaves the canvas — in
particular all of its existing pixel content — unchanged. -/
theorem add_tile_out_of_bounds (c : Canvas) (t : Tile)
    (hout : ¬ (t.position.x + t.size.x ≤ c.size.x
      ∧ t.position.y + t.size.y ≤ c.size.y)) :
    (c.add_tile t).1 = c
      ∧ (c.add_tile t).1.data = c.data
      ∧ (c.add_tile t).2 = Except.error (ZoomError.TileCopyError
          t.position.x t.position.y t.size.x t.size.y c.size.x c.size.y) := by
  have hfit : tileFits c t = false := by
    unfold tileFits
    rcases Decidable.not_and_iff_or_not.mp hout with h | h
    · rw [decide_eq_false h]
      rfl
    · rw [decide_eq_false h]
      simp
  unfold Canvas.add_tile
  rw [hfit]
  exact ⟨rfl, rfl, rfl⟩

/-- Witness for `add_tile_out_of_bounds`: a 50×50 tile at (60,60) on a
100×100 canvas sticks out by 10 pixels in both directions. -/
theorem add_tile_out_of_bounds_witness :
    ((Canvas.new ⟨100, 100⟩).add_tile ⟨⟨60, 60⟩, ⟨50, 50⟩, []⟩).2
      = Except.error (ZoomError.TileCopyError 60 60 50 50 100 100) :=
  (add_tile_out_of_bounds (Canvas.new ⟨100, 100⟩) ⟨⟨60, 60⟩, ⟨50, 50⟩, []⟩
    (by decide)).2.2

/-- The outcome of one HTTP `send()` as the engine observes it: either a
final response (status code and body; redirects already followed inside
the client) or a connection-level failure. -/
inductive HttpOutcome where
  | response (status : Nat) (body : Bytes)
  | failed (msg : String)
deriving DecidableEq

/-- Rust's `str::starts_with`, over the character sequence (kept
kernel-computable). -/
def starts_with (s p : String) : Bool := p.data.isPrefixOf s.data

/-- `fetch_uri` from `main.rs`, with the `reqwest` client abstracted as
`net` and the filesystem as `fileRead`.  A URI starting with
`http://` or `https://` goes through the network: a `send()` failure or
an `error_for_status()` failure (which per reqwest's documented contract
fires exactly on the 4xx/5xx client/server-error statuses, 400–599)
becomes `ZoomError::Networking`; any other URI is read as a local file,
whose failure becomes `ZoomError::Io`. -/
def fetch_uri (net : String → HttpOutcome)
    (fileRead : String → Except String Bytes) (uri : String) :
    Except ZoomError Bytes :=
  if starts_with uri "http://" || starts_with uri "https://" then
    match net uri with
    | HttpOutcome.failed msg => Except.error (ZoomError.Networking (NetError.connection msg))
    | HttpOutcome.response status body =>
      if 400 ≤ status ∧ status ≤ 599 then
        Except.error (ZoomError.Networking (NetError.status status))
      else
        Except.ok body
  else
    match fileRead uri with
    | Except.ok b => Except.ok b
    | Except.error msg => Except.error (ZoomError.Io msg)

/-- C9 counterexample: an `http://` URI whose response carries status
304 — not a 2xx status — is returned as a *success* with the response
body, because `error_for_status()` only fails on 4xx/5xx; the claim that
"any non-2xx status surfaces as a network error" is refuted. -/
theorem fetch_uri_dispatch_cex :
    fetch_uri (fun _ => HttpOutcome.response 304 []) (fun _ => Except.error "no file")
        "http://example.com/a" = Except.ok []
      ∧ (304 < 200 ∨ 300 ≤ 304)
      ∧ fetch_uri (fun _ => HttpOutcome.response 304 [])
          (fun _ => Except.error "no file") "http://example.com/a"
          ≠ Except.error (ZoomError.Networking (NetError.status 304)) := by
  refine ⟨by decide, by decide, by decide⟩

/-- C9 (amended): the fetch operation distinguishes remote from local
sources by URI-scheme convention — a URI beginning with `http://` or
`https://` is fetched over the network, with connection failures and any
4xx/5xx status (the statuses `error_for_status` rejects; other non-2xx
statuses that surface are returned as success with the body, as
`fetch_uri_dispatch_cex` forces) becoming the `Networking` error kind,
and a 2xx response yielding its body; every other URI (regardless of any
other scheme prefix) is read as a local file, with I/O failures becoming
the distinct `Io` error kind. -/
theorem fetch_uri_dispatch (net : String → HttpOutcome)
    (fileRead : String → Except String Bytes) (uri : String) :
    ((starts_with uri "http://" || starts_with uri "https://") = true →
      (∀ msg, net uri = HttpOutcome.failed msg →
        fetch_uri net fileRead uri
          = Except.error (ZoomError.Networking (NetError.connection msg)))
      ∧ (∀ status body, net uri = HttpOutcome.response status body →
          400 ≤ status → status ≤ 599 →
          fetch_uri net fileRead uri
            = Except.error (ZoomError.Networking (NetError.status status)))
      ∧ (∀ status body, net uri = HttpOutcome.response status body →
          200 ≤ status → status < 300 →
          fetch_uri net fileRead uri = Except.ok body))
    ∧ ((starts_with uri "http://" || starts_with uri "https://") = false →
        (∀ b, fileRead uri = Except.ok b →
          fetch_uri net fileRead uri = Except.ok b)
        ∧ (∀ msg, fileRead uri = Except.error msg →
            fetch_uri net fileRead uri = Except.error (ZoomError.Io msg)))
    ∧ (∀ msg e, ZoomError.Io msg ≠ ZoomError.Networking e) := by
  refine ⟨?_, ?_, ?_⟩
  · intro hhttp
    refine ⟨?_, ?_, ?_⟩
    · intro msg hnet
      unfold fetch_uri
      rw [hhttp, if_pos rfl, hnet]
    · intro status body hnet h4 h5
      unfold fetch_uri
      rw [hhttp, if_pos rfl, hnet]
      simp only [if_pos (And.intro h4 h5)]
    · intro status body hnet h2 h3
      unfold fetch_uri
      rw [hhttp, if_pos rfl, hnet]
      have : ¬ (400 ≤ status ∧ status ≤ 599) := by omega
      simp only [if_neg this]
  · intro hlocal
    constructor
    · intro b hfile
      unfold fetch_uri
      rw [hlocal]
      simp only [Bool.false_eq_true, if_false, hfile]
    · intro msg hfile
      unfold fetch_uri
      rw [hlocal]
      simp only [Bool.false_eq_true, if_false, hfile]
  · intro msg e h
    cases h

/-- Witness for `fetch_uri_dispatch`: a 500 response on an `https://`
URI is a `Networking` error; an `ftp://` URI is read as a local file and
its failure is an `Io` error. -/
theorem fetch_uri_dispatch_witness :
    fetch_uri (fun _ => HttpOutcome.response 500 []) (fun _ => Except.error "io fail")
        "https://example.com/t" = Except.error (ZoomError.Networking (NetError.status 500))
      ∧ fetch_uri (fun _ => HttpOutcome.response 200 [1]) (fun _ => Except.error "io fail")
          "ftp://example.com/t" = Except.error (ZoomError.Io "io fail") :=
  ⟨((fetch_uri_dispatch (fun _ => HttpOutcome.response 500 [])
      (fun _ => Except.error "io fail") "https://example.com/t").1 (by decide)).2.1
      500 [] rfl (by decide) (by decide),
    ((fetch_uri_dispatch (fun _ => HttpOutcome.response 200 [1])
      (fun _ => Except.error "io fail") "ftp://example.com/t").2.1 (by decide)).2
      "io fail" rfl⟩

/-- `DezoomerInput` from `dezoomer.rs` as used by `list_tiles`: the
current identifier (URI) and the optional previously fetched bytes. -/
structure DezoomerInput where
  uri : String
  contents : Option Bytes
deriving DecidableEq

/-- `list_tiles` from `main.rs`, with the stateful `&mut dyn Dezoomer`
modelled as an explicit state machine `probe : σ → DezoomerInput → σ ×
result` and termination fuel (the Rust loop is unbounded).  Returns
`none` on fuel exhaustion, otherwise the loop result, the list of URIs
fetched along the way (in order), and the `DezoomerInput` passed to the
final probe call.  A probe success returns the levels; `NeedsData{uri}`
fetches `uri` and replaces the input's identifier and bytes with the
fetched pair before reprobing (a fetch failure propagates via `?`); any
other probe error ends the loop as `ZoomError::Dezoomer` around the
unchanged error. -/
def list_tiles {σ : Type}
    (probe : σ → DezoomerInput → σ × Except DezoomerError ZoomLevels)
    (fetch : String → Except ZoomError Bytes) :
    Nat → σ → DezoomerInput → List String →
    Option (Except ZoomError ZoomLevels × List String × DezoomerInput)
  | 0, _, _, _ => none
  | fuel + 1, s, i, acc =>
    match probe s i with
    | (_, Except.ok levels) => some (Except.ok levels, acc.reverse, i)
    | (s2, Except.error (DezoomerError.NeedsData uri)) =>
      match fetch uri with
      | Except.ok contents =>
        list_tiles probe fetch fuel s2 ⟨uri, some contents⟩ (uri :: acc)
      | Except.error e => some (Except.error e, (uri :: acc).reverse, i)
    | (_, Except.error (DezoomerError.other msg)) =>
      some (Except.error (ZoomError.Dezoomer (DezoomerError.other msg)),
        acc.reverse, i)

theorem list_tiles_ok {σ : Type}
    (probe : σ → DezoomerInput → σ × Except DezoomerError ZoomLevels)
    (fetch : String → Except ZoomError Bytes) (fuel : Nat) (s s2 : σ)
    (i : DezoomerInput) (acc : List String) (levels : ZoomLevels)
    (h : probe s i = (s2, Except.ok levels)) :
    list_tiles probe fetch (fuel + 1) s i acc
      = some (Except.ok levels, acc.reverse, i) := by
  unfold list_tiles
  rw [h]

theorem list_tiles_needs {σ : Type}
    (probe : σ → DezoomerInput → σ × Except DezoomerError ZoomLevels)
    (fetch : String → Except ZoomError Bytes) (fuel : Nat) (s s2 : σ)
    (i : DezoomerInput) (acc : List String) (uri : String) (b : Bytes)
    (h : probe s i = (s2, Except.error (DezoomerError.NeedsData uri)))
    (hf : fetch uri = Except.ok b) :
    list_tiles probe fetch (fuel + 1) s i acc
      = list_tiles probe fetch fuel s2 ⟨uri, some b⟩ (uri :: acc) := by
  have hred : list_tiles probe fetch (fuel + 1) s i acc
      = (match probe s i with
        | (_, Except.ok levels) => some (Except.ok levels, acc.reverse, i)
        | (s2, Except.error (DezoomerError.NeedsData uri)) =>
          (match fetch uri with
          | Except.ok contents =>
            list_tiles probe fetch fuel s2 ⟨uri, some contents⟩ (uri :: acc)
          | Except.error e => some (Except.error e, (uri :: acc).reverse, i))
        | (_, Except.error (DezoomerError.other msg)) =>
          some (Except.error (ZoomError.Dezoomer (DezoomerError.other msg)),
            acc.reverse, i)) := rfl
  rw [hred, h]
  show (match fetch uri with
      | Except.ok contents =>
        list_tiles probe fetch fuel s2 ⟨uri, some contents⟩ (uri :: acc)
      | Except.error e => some (Except.error e, (uri :: acc).reverse, i))
    = list_tiles probe fetch fuel s2 ⟨uri, some b⟩ (uri :: acc)
  rw [hf]

theorem list_tiles_err {σ : Type}
    (probe : σ → DezoomerInput → σ × Except DezoomerError ZoomLevels)
    (fetch : String → Except ZoomError Bytes) (fuel : Nat) (s s2 : σ)
    (i : DezoomerInput) (acc : List String) (msg : String)
    (h : probe s i = (s2, Except.error (DezoomerError.other msg))) :
    list_tiles probe fetch (fuel + 1) s i acc
      = some (Except.error (ZoomError.Dezoomer (DezoomerError.other msg)),
          acc.reverse, i) := by
  unfold list_tiles
  rw [h]

/-- A scripted protocol implementation: its state is the list of URIs it
still wants; it answers `NeedsData` for each in turn and then succeeds
with `levels`. -/
def scriptedProbe (levels : ZoomLevels) :
    List String → DezoomerInput → List String × Except DezoomerError ZoomLevels
  | [], _ => ([], Except.ok levels)
  | u :: rest, _ => (rest, Except.error (DezoomerError.NeedsData u))

/-- The `DezoomerInput` the loop passes to its final probe call, given
the starting input and the sequence of URIs fetched on the way: each
fetch replaces the input with the fetched pair. -/
def lastProbeInput (bytesOf : String → Bytes) :
    DezoomerInput → List String → DezoomerInput
  | i, [] => i
  | _, u :: rest => lastProbeInput bytesOf ⟨u, some (bytesOf u)⟩ rest

theorem lastProbeInput_getLast (bytesOf : String → Bytes) :
    ∀ (uris : List String) (i : DezoomerInput) (uN : String),
      uris.getLast? = some uN →
      lastProbeInput bytesOf i uris = ⟨uN, some (bytesOf uN)⟩ := by
  intro uris
  induction uris with
  | nil => intro i uN h; cases h
  | cons u rest ih =>
    intro i uN h
    cases rest with
    | nil =>
      cases h
      rfl
    | cons v vs =>
      rw [List.getLast?_cons_cons] at h
      exact ih ⟨u, some (bytesOf u)⟩ uN h

theorem list_tiles_script (levels : ZoomLevels) (bytesOf : String → Bytes) :
    ∀ (uris : List String) (i : DezoomerInput) (acc : List String),
      list_tiles (scriptedProbe levels) (fun u => Except.ok (bytesOf u))
          (uris.length + 1) uris i acc
        = some (Except.ok levels, acc.reverse ++ uris,
            lastProbeInput bytesOf i uris) := by
  intro uris
  induction uris with
  | nil =>
    intro i acc
    simp only [List.length_nil]
    rw [list_tiles_ok (scriptedProbe levels) (fun u => Except.ok (bytesOf u))
      0 [] [] i acc levels rfl]
    simp [lastProbeInput]
  | cons u rest ih =>
    intro i acc
    have hstep := list_tiles_needs (scriptedProbe levels)
      (fun u => Except.ok (bytesOf u)) (rest.length + 1) (u :: rest) rest i acc
      u (bytesOf u) rfl rfl
    rw [show (u :: rest).length + 1 = rest.length + 1 + 1 from rfl, hstep,
      ih ⟨u, some (bytesOf u)⟩ (u :: acc)]
    simp [lastProbeInput]

/-- C2: for a protocol probe that answers `NeedsData` for the N distinct
URIs of `uris` in sequence and then succeeds with `levels`, the
resolution loop performs exactly the N fetches `uris` (in order) before
returning the levels; each `NeedsData` iteration replaces the
`ProbeInput`'s identifier and bytes with the newly fetched pair (third
conjunct, one loop step); the input of the last (successful) probe call
carries the Nth fetched URI and its bytes (second conjunct); and a probe
error other than `NeedsData` ends the loop at once with that error
propagated unchanged inside `ZoomError::Dezoomer`, with no further fetch
(fourth conjunct). -/
theorem resolution_loop_spec (levels : ZoomLevels) (bytesOf : String → Bytes)
    (uris : List String) (u0 : String) :
    (list_tiles (scriptedProbe levels) (fun u => Except.ok (bytesOf u))
        (uris.length + 1) uris ⟨u0, none⟩ []
      = some (Except.ok levels, uris, lastProbeInput bytesOf ⟨u0, none⟩ uris))
    ∧ (∀ uN, uris.getLast? = some uN →
        lastProbeInput bytesOf ⟨u0, none⟩ uris = ⟨uN, some (bytesOf uN)⟩)
    ∧ (∀ (σ : Type)
        (probe : σ → DezoomerInput → σ × Except DezoomerError ZoomLevels)
        (fetch : String → Except ZoomError Bytes) (fuel : Nat) (s s2 : σ)
        (i : DezoomerInput) (acc : List String) (uri : String) (b : Bytes),
        probe s i = (s2, Except.error (DezoomerError.NeedsData uri)) →
        fetch uri = Except.ok b →
        list_tiles probe fetch (fuel + 1) s i acc
          = list_tiles probe fetch fuel s2 ⟨uri, some b⟩ (uri :: acc))
    ∧ (∀ (σ : Type)
        (probe : σ → DezoomerInput → σ × Except DezoomerError ZoomLevels)
        (fetch : String → Except ZoomError Bytes) (fuel : Nat) (s s2 : σ)
        (i : DezoomerInput) (acc : List String) (msg : String),
        probe s i = (s2, Except.error (DezoomerError.other msg)) →
        list_tiles probe fetch (fuel + 1) s i acc
          = some (Except.error (ZoomError.Dezoomer (DezoomerError.other msg)),
              acc.reverse, i)) := by
  refine ⟨?_, ?_, ?_, ?_⟩
  · have := list_tiles_script levels bytesOf uris ⟨u0, none⟩ []
    simpa using this
  · intro uN h
    exact lastProbeInput_getLast bytesOf uris ⟨u0, none⟩ uN h
  · intro σ probe fetch fuel s s2 i acc uri b h hf
    exact list_tiles_needs probe fetch fuel s s2 i acc uri b h hf
  · intro σ probe fetch fuel s s2 i acc msg h
    exact list_tiles_err probe fetch fuel s s2 i acc msg h

/-- Levels returned by the scripted probe of the C2 witness. -/
def demoLevels : ZoomLevels := [⟨"demo", some ⟨4, 4⟩⟩]

/-- Bytes-per-URI for the C2 witness. -/
def demoBytes (u : String) : Bytes := [u.length]

/-- A probe that always fails with a non-`NeedsData` error. -/
def failProbe : Unit → DezoomerInput → Unit × Except DezoomerError ZoomLevels :=
  fun _ _ => ((), Except.error (DezoomerError.other "boom"))

/-- Witness for `resolution_loop_spec`: a probe needing the two
manifests "m1" then "m2" makes the loop fetch exactly those two URIs and
hand the final probe call `m2`'s bytes; a probe failing with an
`other`-kind error ends the loop with that error and no fetch. -/
theorem resolution_loop_spec_witness :
    (list_tiles (scriptedProbe demoLevels) (fun u => Except.ok (demoBytes u)) 3
        ["m1", "m2"] ⟨"start", none⟩ []
      = some (Except.ok demoLevels, ["m1", "m2"], ⟨"m2", some (demoBytes "m2")⟩))
    ∧ (list_tiles failProbe (fun u => Except.ok (demoBytes u)) 1 ()
        ⟨"start", none⟩ ["pre"]
      = some (Except.error (ZoomError.Dezoomer (DezoomerError.other "boom")),
          ["pre"].reverse, ⟨"start", none⟩)) := by
  have h := resolution_loop_spec demoLevels demoBytes ["m1", "m2"] "start"
  refine ⟨?_, ?_⟩
  · exact h.1.trans (by rw [h.2.1 "m2" (by decide)])
  · exact h.2.2.2 Unit failProbe
      (fun u => Except.ok (demoBytes u)) 0 () () ⟨"start", none⟩ ["pre"] "boom" rfl

/-- A registered protocol implementation as the engine sees it: a stable
name plus its probe state machine (`Box<dyn Dezoomer>`; the registry
contents of `auto::all_dezoomers` live in `auto.rs` and are left
parametric). -/
structure DezoomerImpl (σ : Type) where
  name : String
  state0 : σ
  probe : σ → DezoomerInput → σ × Except DezoomerError ZoomLevels

/-- `Arguments::find_dezoomer` from `main.rs`: the first registered
implementation whose name equals the requested one, else
`ZoomError::NoSuchDezoomer` carrying the requested name. -/
def find_dezoomer {σ : Type} (registry : List (DezoomerImpl σ))
    (requested : String) : Except ZoomError (DezoomerImpl σ) :=
  match registry.find? (fun d => d.name == requested) with
  | some d => Except.ok d
  | none => Except.error (ZoomError.NoSuchDezoomer requested)

/-- `find_zoomlevel` from `main.rs`: look the dezoomer up, run the
resolution loop (`list_tiles`), then `choose_level`.  Alongside the
result it returns the list of URIs fetched during discovery; `none`
models loop non-termination within the given fuel. -/
def find_zoomlevel {σ : Type} (registry : List (DezoomerImpl σ))
    (args : Arguments) (requested uri : String)
    (fetch : String → Except ZoomError Bytes) (fuel : Nat) :
    Option (Except ZoomError LevelChoice × List String) :=
  match find_dezoomer registry requested with
  | Except.error e => some (Except.error e, [])
  | Except.ok d =>
    match list_tiles d.probe fetch fuel d.state0 ⟨uri, none⟩ [] with
    | none => none
    | some (Except.error e, fetched, _) => some (Except.error e, fetched)
    | some (Except.ok levels, fetched, _) =>
      some (choose_level levels args, fetched)

/-- C10: when the requested dezoomer name matches no registered
implementation, the lookup fails with `NoSuchDezoomer` carrying exactly
the requested name, and the run aborts with that error having performed
zero fetches. -/
theorem find_dezoomer_unknown (σ : Type) (registry : List (DezoomerImpl σ))
    (args : Arguments) (requested uri : String)
    (fetch : String → Except ZoomError Bytes) (fuel : Nat)
    (h : ∀ d ∈ registry, d.name ≠ requested) :
    find_dezoomer registry requested
        = Except.error (ZoomError.NoSuchDezoomer requested)
      ∧ find_zoomlevel registry args requested uri fetch fuel
          = some (Except.error (ZoomError.NoSuchDezoomer requested), []) := by
  have hfind : registry.find? (fun d => d.name == requested) = none := by
    rw [List.find?_eq_none]
    intro d hd
    simpa using h d hd
  have h1 : find_dezoomer registry requested
      = Except.error (ZoomError.NoSuchDezoomer requested) := by
    unfold find_dezoomer
    rw [hfind]
  refine ⟨h1, ?_⟩
  unfold find_zoomlevel
  rw [h1]

/-- A one-entry registry for the C10 witness. -/
def demoRegistry : List (DezoomerImpl Unit) :=
  [⟨"zoomify", (), failProbe⟩]

/-- Witness for `find_dezoomer_unknown`: requesting "nosuch" against a
registry holding only "zoomify" aborts with the named error and an empty
fetch log. -/
theorem find_dezoomer_unknown_witness :
    find_zoomlevel demoRegistry largestArgs "nosuch" "http://x"
        (fun u => Except.ok (demoBytes u)) 5
      = some (Except.error (ZoomError.NoSuchDezoomer "nosuch"), []) :=
  (find_dezoomer_unknown Unit demoRegistry largestArgs "nosuch" "http://x"
    (fun u => Except.ok (demoBytes u)) 5
    (by intro d hd; rw [demoRegistry, List.mem_singleton] at hd; subst hd; decide)).2
